import Mathlib

/-!
Verification of the GeM bid downloader (src/gem_downloader) against its
natural-language specification.  The repository has two scripts:

* `gem_downloader/latest/gem_latest.py` — field normalizers
  (`normalize_ms`, `normalize_id`, `normalize_bid_no`), document routing
  (`bid_doc_url`), and the PDF downloader (`download_file`);
* `gem_downloader/incremental/gem_incremental.py` — the keyword/category/state
  filters (`matches_keyword`, `matches_category`, `matches_state`), the
  incremental main loop with its `seen_ids` / `last_seen_epoch` watermark,
  and the simpler `download_bid_pdf`.

Python values arriving from the upstream JSON API are modelled by the
inductive type `PyVal`; strings are modelled as `List Char` (ASCII level:
`str.lower`, `str.isspace`, `\d` are modelled over the ASCII subset, which is
all the repository's data ever exercises).  Python floats are modelled as
rationals: the only float operation the sources perform is truncation to an
integer via `int(·)`.
-/

namespace GemDw

/-! ## Character and list-of-char utilities (models of Python str primitives) -/

/-- Python whitespace set used by `str.strip()` / `str.split()` (ASCII part):
space, tab, newline, carriage return, vertical tab, form feed. -/
def wsChars : List Char := [' ', '\t', '\n', '\r', Char.ofNat 11, Char.ofNat 12]

def isSpaceChar (c : Char) : Bool := wsChars.contains c

/-- Model of `str.lower()` (ASCII). -/
def lowerL (l : List Char) : List Char := l.map Char.toLower

/-- Model of `str.upper()` (ASCII). -/
def upperL (l : List Char) : List Char := l.map Char.toUpper

/-- Boolean test that `n` is an initial segment of `h` (helper for the
Python substring operator `in`). -/
def listStarts : List Char → List Char → Bool
  | [], _ => true
  | _ :: _, [] => false
  | a :: as, b :: bs => a == b && listStarts as bs

/-- Model of the Python substring operator `needle in hay`. -/
def strContains (hay needle : List Char) : Bool :=
  listStarts needle hay ||
    (match hay with
     | [] => false
     | _ :: t => strContains t needle)

/-- `n` occurs as a contiguous substring of `h`. -/
def SubstrOf (n h : List Char) : Prop := ∃ a b, h = a ++ n ++ b

/-- Model of `str.split()` with no argument: split on whitespace runs,
dropping empty pieces.  The accumulator holds the current token reversed. -/
def splitWsAux : List Char → List Char → List (List Char)
  | [], acc => if acc.isEmpty then [] else [acc.reverse]
  | c :: t, acc =>
    if isSpaceChar c then
      (if acc.isEmpty then splitWsAux t [] else acc.reverse :: splitWsAux t [])
    else splitWsAux t (c :: acc)

def splitWs (l : List Char) : List (List Char) := splitWsAux l []

/-- Model of `str.strip(chars)` for a character predicate: remove matching
characters from both ends. -/
def pyStrip (p : Char → Bool) (l : List Char) : List Char :=
  ((l.dropWhile p).reverse.dropWhile p).reverse

/-- The character set of the second strip in `normalize_id`:
the Python literal is `"[](){} \t\r\n\"'"` (brackets, parens, braces,
whitespace, double quote, single quote). -/
def idStripChars : List Char :=
  ['[', ']', '(', ')', Char.ofNat 123, Char.ofNat 125,
   ' ', '\t', '\r', '\n', Char.ofNat 34, Char.ofNat 39]

def isIdStripChar (c : Char) : Bool := idStripChars.contains c

/-- Model of `re.search(r"\d+", s)`: the first maximal run of decimal
digits, or `[]` when there is none. -/
def firstDigitRun (l : List Char) : List Char :=
  (l.dropWhile (fun c => !c.isDigit)).takeWhile (fun c => c.isDigit)

/-! ## Decimal rendering (model of Python `str(int)`) -/

def digitChar (d : Nat) : Char := Char.ofNat (48 + d % 10)

/-- Fueled digit renderer; the fuel `n + 1` always suffices for `n`. -/
def natDigitsAux : Nat → Nat → List Char
  | 0, _ => []
  | fuel + 1, n =>
    if n < 10 then [digitChar n]
    else natDigitsAux fuel (n / 10) ++ [digitChar (n % 10)]

/-- Decimal digit string of a natural number (model of `str(n)`, `n ≥ 0`). -/
def natStr (n : Nat) : List Char := natDigitsAux (n + 1) n

/-- Model of Python `str(n)` for an integer: a minus sign followed by the
digits when `n < 0`. -/
def intStr (n : Int) : List Char :=
  if n < 0 then '-' :: natStr n.natAbs else natStr n.toNat

/-! ## Python values -/

/-- Shape of a JSON/Python value as received from the upstream API. -/
inductive PyVal where
  | none
  | bool (b : Bool)
  | int (n : Int)
  | float (q : Rat)
  | str (s : List Char)
  | list (l : List PyVal)
  | dict (d : List (String × PyVal))

/-- Python `int(q)` on a float truncates toward zero. -/
def truncRat (q : Rat) : Int := if q < 0 then -((-q).floor) else q.floor

/-- Validates the part of an integer literal after its first digit:
digits, with single underscores allowed between digits (Python `int(str)`
accepts `"1_0"` but rejects leading/trailing/doubled underscores). -/
def digitsOkAux : List Char → Bool
  | [] => true
  | c :: rest =>
    if c = '_' then
      match rest with
      | [] => false
      | d :: r2 => d.isDigit && digitsOkAux r2
    else c.isDigit && digitsOkAux rest

def digitsOk : List Char → Bool
  | [] => false
  | c :: rest => c.isDigit && digitsOkAux rest

def digitsVal (l : List Char) : Nat :=
  (l.filter (fun c => c.isDigit)).foldl (fun a c => a * 10 + (c.toNat - 48)) 0

/-- Model of Python `int(s)` on a string: strip whitespace, optional sign,
then a digit run (underscore separators allowed); `none` models the
`ValueError` raised on anything else. -/
def parseInt (s : List Char) : Option Int :=
  let t := pyStrip isSpaceChar s
  match t with
  | [] => Option.none
  | c :: rest =>
    if c = '-' then
      (if digitsOk rest then some (-(digitsVal rest : Int)) else Option.none)
    else if c = '+' then
      (if digitsOk rest then some ((digitsVal rest : Int)) else Option.none)
    else if digitsOk t then some ((digitsVal t : Int)) else Option.none

/-- Exceptions raised by the Python primitives the sources apply to values. -/
inductive PyExc where
  | typeError
  | valueError

/-- Model of the Python builtin `int(value)` applied to an arbitrary value:
bools and ints pass through, floats truncate, strings parse, and every other
shape raises `TypeError`. -/
def pyIntCoerce : PyVal → Except PyExc Int
  | .bool b => .ok (if b then 1 else 0)
  | .int n => .ok n
  | .float q => .ok (truncRat q)
  | .str s =>
    match parseInt s with
    | some n => .ok n
    | Option.none => .error .valueError
  | _ => .error .typeError

mutual
/-- Model of Python `repr(value)`.  String escaping and the float rendering
are approximated (a rational is shown as `num/den`); no claim depends on the
exact text produced for those shapes. -/
def pyRepr : PyVal → List Char
  | .none => "None".toList
  | .bool true => "True".toList
  | .bool false => "False".toList
  | .int n => intStr n
  | .float q => intStr q.num ++ '/' :: natStr q.den
  | .str s => Char.ofNat 39 :: s ++ [Char.ofNat 39]
  | .list l => '[' :: pyReprL l ++ [']']
  | .dict d => Char.ofNat 123 :: pyReprD d ++ [Char.ofNat 125]

/-- Comma-joined reprs of the elements of a Python list. -/
def pyReprL : List PyVal → List Char
  | [] => []
  | [v] => pyRepr v
  | v :: t => pyRepr v ++ ',' :: ' ' :: pyReprL t

/-- Comma-joined `'key': repr(value)` entries of a Python dict. -/
def pyReprD : List (String × PyVal) → List Char
  | [] => []
  | [(k, v)] => Char.ofNat 39 :: k.toList ++ Char.ofNat 39 :: ':' :: ' ' :: pyRepr v
  | (k, v) :: t =>
    Char.ofNat 39 :: k.toList ++ Char.ofNat 39 :: ':' :: ' ' :: pyRepr v
      ++ ',' :: ' ' :: pyReprD t
end

/-- Model of Python `str(value)`: the string itself for a string, `repr`
otherwise (which is what `str` does on every shape the sources hit). -/
def pyStr : PyVal → List Char
  | .str s => s
  | v => pyRepr v

/-! ## The three field normalizers (gem_latest.py, lines 103–171) -/

/-- Model of `normalize_ms` (gem_latest.py:103).  Order of the source's
`isinstance` tests is preserved: `None`, `int` (which in Python includes
`bool`), `float`, `list` (the builtin `int(·)` is applied to the head and
failures are caught to 0), then a final `int(value)` with failures caught
to 0. -/
def normalize_ms : PyVal → Int
  | .none => 0
  | .bool b => if b then 1 else 0
  | .int n => n
  | .float q => truncRat q
  | .list [] => 0
  | .list (h :: _) =>
    match pyIntCoerce h with
    | .ok n => n
    | .error _ => 0
  | .str s =>
    match pyIntCoerce (.str s) with
    | .ok n => n
    | .error _ => 0
  | .dict d =>
    match pyIntCoerce (.dict d) with
    | .ok n => n
    | .error _ => 0

/-- Model of `normalize_id` (gem_latest.py:131).  `None → ""`;
`int` (including `bool`, whose `str` is `True`/`False`) stringifies;
`float` stringifies its truncation; a list recurses into its head
(empty list → `""`); otherwise `str(value)` is stripped of whitespace,
then of the bracket/quote/whitespace set, and the first digit run is
extracted. -/
def normalize_id : PyVal → List Char
  | .none => []
  | .bool b => if b then "True".toList else "False".toList
  | .int n => intStr n
  | .float q => intStr (truncRat q)
  | .list [] => []
  | .list (h :: _) => normalize_id h
  | .str s => firstDigitRun (pyStrip isIdStripChar (pyStrip isSpaceChar s))
  | .dict d =>
    firstDigitRun (pyStrip isIdStripChar (pyStrip isSpaceChar (pyStr (.dict d))))

/-- Model of `normalize_bid_no` (gem_latest.py:156): `None → ""`, a string
is whitespace-trimmed, a list recurses into its head (empty → `""`), any
other shape is `str(value).strip()`. -/
def normalize_bid_no : PyVal → List Char
  | .none => []
  | .str s => pyStrip isSpaceChar s
  | .list [] => []
  | .list (h :: _) => normalize_bid_no h
  | v => pyStrip isSpaceChar (pyStr v)

/-! ## Fueled re-statements of the normalizers.

The sources recurse through list heads; to make termination of that
recursion a provable statement (claim C7) rather than a typing artifact,
each normalizer is restated with explicit fuel, returning `Option.none`
when the fuel runs out.  The bodies are the same as above. -/

/-- Head-nesting depth of a value — the number of list-head recursion steps
the normalizers perform on it. -/
def headDepth : PyVal → Nat
  | .list (h :: _) => headDepth h + 1
  | _ => 0

def normalize_ms_run : Nat → PyVal → Option Int
  | 0, _ => Option.none
  | _ + 1, v =>
    match v with
    | .none => some 0
    | .bool b => some (if b then 1 else 0)
    | .int n => some n
    | .float q => some (truncRat q)
    | .list [] => some 0
    | .list (h :: _) =>
      some (match pyIntCoerce h with
            | .ok n => n
            | .error _ => 0)
    | .str s =>
      some (match pyIntCoerce (.str s) with
            | .ok n => n
            | .error _ => 0)
    | .dict d =>
      some (match pyIntCoerce (.dict d) with
            | .ok n => n
            | .error _ => 0)

def normalize_id_run : Nat → PyVal → Option (List Char)
  | 0, _ => Option.none
  | fuel + 1, v =>
    match v with
    | .none => some []
    | .bool b => some (if b then "True".toList else "False".toList)
    | .int n => some (intStr n)
    | .float q => some (intStr (truncRat q))
    | .list [] => some []
    | .list (h :: _) => normalize_id_run fuel h
    | .str s => some (firstDigitRun (pyStrip isIdStripChar (pyStrip isSpaceChar s)))
    | .dict d =>
      some (firstDigitRun (pyStrip isIdStripChar (pyStrip isSpaceChar (pyStr (.dict d)))))

def normalize_bid_no_run : Nat → PyVal → Option (List Char)
  | 0, _ => Option.none
  | fuel + 1, v =>
    match v with
    | .none => some []
    | .str s => some (pyStrip isSpaceChar s)
    | .list [] => some []
    | .list (h :: _) => normalize_bid_no_run fuel h
    | v => some (pyStrip isSpaceChar (pyStr v))

/-! ## Filters (gem_incremental.py, lines 84–101) -/

/-- Model of `matches_keyword(text, keyword, mode)` (gem_incremental.py:84).
`if not keyword: return True` passes on `None` and on the empty string;
otherwise both sides are lowercased, mode `"exact"` is a whole-substring
test, and every other mode requires each whitespace-separated token of the
keyword to occur in the haystack. -/
def matches_keyword (text : List Char) (keyword : Option (List Char)) (mode : List Char) :
    Bool :=
  match keyword with
  | Option.none => true
  | some kw =>
    if kw.isEmpty then true
    else
      let hay := lowerL text
      let needle := lowerL kw
      if mode = "exact".toList then strContains hay needle
      else (splitWs needle).all (fun t => strContains hay t)

/-- Model of `matches_category` (gem_incremental.py:93): empty/absent filter
passes everything, otherwise a case-insensitive substring test. -/
def matches_category (category_text : List Char) (category_filter : Option (List Char)) :
    Bool :=
  match category_filter with
  | Option.none => true
  | some f => if f.isEmpty then true else strContains (lowerL category_text) (lowerL f)

/-- Model of `matches_state` (gem_incremental.py:98): empty/absent allow-list
passes everything, otherwise uppercased set membership. -/
def matches_state (consignee_state : List Char) (allowed : Option (List (List Char))) :
    Bool :=
  match allowed with
  | Option.none => true
  | some l => if l.isEmpty then true else (l.map upperL).contains (upperL consignee_state)

/-! ## Document routing (gem_latest.py, `bid_doc_url`, lines 174–193) -/

/-- Python truthiness of a value (`if value:` / `value or default`). -/
def pyTruthy : PyVal → Bool
  | .none => false
  | .bool b => b
  | .int n => n != 0
  | .float q => q != 0
  | .str s => !s.isEmpty
  | .list l => !l.isEmpty
  | .dict d => !d.isEmpty

/-- Python `a or b`. -/
def pyOr (a b : PyVal) : PyVal := if pyTruthy a then a else b

/-- Python `value == k` against an integer literal: numeric equality for
ints, floats and bools, `False` for every other shape (cross-type `==`
never raises). -/
def pyEqInt : PyVal → Int → Bool
  | .int n, k => n == k
  | .float q, k => q == (k : Rat)
  | .bool b, k => (if b then (1 : Int) else 0) == k
  | _, _ => false

/-- Python `value > 0`: defined for numeric shapes, `Option.none` models the
`TypeError` raised when comparing a non-number to `0`. -/
def pyGtZero : PyVal → Option Bool
  | .int n => some (decide (0 < n))
  | .float q => some (decide (0 < q))
  | .bool b => some b
  | _ => Option.none

/-- Model of `dict.get(key, default)` on the record. -/
def pyGetD (doc : List (String × PyVal)) (key : String) (dflt : PyVal) : PyVal :=
  match doc.lookup key with
  | some v => v
  | Option.none => dflt

def GEM_BASE : List Char := "https://bidplus.gem.gov.in".toList

/-- Model of `bid_doc_url(doc)` (gem_latest.py:174): route on
`b_bid_type` / `b_eval_type` and join the chosen path segment with the
normalized `b_id`; an empty `b_id` gives the empty string.  The outer
`Option` is `Option.none` exactly when the source would raise a `TypeError`
comparing a non-numeric `b_eval_type` to `0`. -/
def bid_doc_url (doc : List (String × PyVal)) : Option (List Char) :=
  let b_id := normalize_id (pyGetD doc "b_id" .none)
  let b_bid_type := pyGetD doc "b_bid_type" .none
  let b_eval_type := pyGetD doc "b_eval_type" (.int 0)
  let doc_lbl : Option (List Char) :=
    if pyEqInt b_bid_type 5 then some ("showdirectradocumentPdf".toList)
    else if pyEqInt b_bid_type 2 then
      match pyGtZero (pyOr b_eval_type (.int 0)) with
      | Option.none => Option.none
      | some true => some ("list-ra-schedules".toList)
      | some false => some ("showradocumentPdf".toList)
    else some ("showbidDocument".toList)
  doc_lbl.map (fun lbl => if b_id.isEmpty then [] else GEM_BASE ++ '/' :: lbl ++ '/' :: b_id)

/-! ## Downloaders -/

/-- The transport-visible part of an HTTP response: status code, declared
`Content-Type` (already defaulted to `""` when the header is absent, as both
sources do), and the body bytes. -/
structure HttpResp where
  status : Nat
  contentType : List Char
  body : List Nat
deriving DecidableEq

/-- The five magic bytes `%PDF-`. -/
def pdfMagic : List Nat := [37, 80, 68, 70, 45]

/-- Observable outcome of `download_file`: the boolean return value, whether
the destination file was written, and whether a diagnostic artifact
(`out_path` with an `.html` suffix) was written. -/
structure DlResult where
  ok : Bool
  savedPdf : Bool
  savedDebug : Bool
deriving DecidableEq

/-- Model of `download_file(session, url, out_path, referer, timeout)`
(gem_latest.py:316).  The transport is the environment: `.error` models
`session.get` (or the body stream) raising, which the source's `except`
clause turns into a `False` return.  `raise_for_status` raises for status
≥ 400, also caught.  When the declared content type does not contain
`"pdf"`, the first five body bytes are peeked: only `%PDF-` is accepted;
otherwise the body goes to a diagnostic sibling path and the call fails. -/
def download_file (url out_path referer : String) (resp : Except String HttpResp) :
    DlResult :=
  match resp with
  | .error _ => ⟨false, false, false⟩
  | .ok r =>
    if 400 ≤ r.status then ⟨false, false, false⟩
    else if !strContains (lowerL r.contentType) ("pdf".toList) then
      (if r.body.take 5 = pdfMagic then ⟨true, true, false⟩ else ⟨false, false, true⟩)
    else ⟨true, true, false⟩

/-- Model of `download_bid_pdf(session, bid_id)` (gem_incremental.py:106).
There is no `try`/`except` in the source: a transport exception (`.error`)
propagates to the caller, which the `Except` return type records.  On a
response, the PDF is saved and `True` returned exactly when the status is
200 and the declared content type contains `"pdf"`; the body bytes are never
inspected. -/
def download_bid_pdf (bid_id : String) (resp : Except String HttpResp) :
    Except String Bool :=
  match resp with
  | .error e => .error e
  | .ok r => .ok (r.status == 200 && strContains (lowerL r.contentType) ("pdf".toList))

/-! ## Incremental main loop (gem_incremental.py `main`, lines 159–194)

The network and the HTML parser are the environment: a `BidView` records,
for one bid id the loop visits, exactly what the source extracts from that
environment (`r.status_code == 200`, `extract_bid_start_epoch`, the page
text and the two extracted fields the filters consume).  The loop body is
then a pure fold over the visited bids. -/

structure CrawlArgs where
  keyword : Option (List Char)
  mode : List Char
  category : Option (List Char)
  state : Option (List (List Char))

structure BidView where
  id : String
  httpOk : Bool
  startEpoch : Option Int
  pageText : List Char
  categoryText : List Char
  consigneeState : List Char

/-- Loop state: the (mutated) `seen_ids`, the running `newest_epoch`, and an
instrumentation list recording `(bid_id, start_epoch)` for each bid that
reached the download step ("processed"). -/
structure RunState where
  seenIds : List String
  newestEpoch : Int
  processed : List (String × Int)
deriving DecidableEq

def passes_filters (a : CrawlArgs) (b : BidView) : Bool :=
  matches_keyword b.pageText a.keyword a.mode &&
  matches_category b.categoryText a.category &&
  matches_state b.consigneeState a.state

/-- One iteration of the `for bid_id in dict.fromkeys(all_ids)` loop.
A bid already in `seen_ids`, an unsuccessful detail fetch, a falsy
(`None` or `0`) start epoch, a start epoch not strictly above the pre-run
`last_seen_epoch`, or a failed filter each `continue` without touching the
state; otherwise the bid is downloaded, its id added to `seen_ids`, and
`newest_epoch` raised to its start epoch. -/
def main_step (a : CrawlArgs) (last_seen_epoch : Int) (st : RunState) (b : BidView) :
    RunState :=
  if st.seenIds.contains b.id then st
  else if !b.httpOk then st
  else
    match b.startEpoch with
    | Option.none => st
    | some e =>
      if e == 0 || e ≤ last_seen_epoch then st
      else if !passes_filters a b then st
      else ⟨b.id :: st.seenIds, max st.newestEpoch e, st.processed ++ [(b.id, e)]⟩

/-- The whole per-bid loop: fold `main_step` from the loaded state
(`seen_ids` from the state file, `newest_epoch = last_seen_epoch`). -/
def main_run (a : CrawlArgs) (last_seen_epoch : Int) (preSeen : List String)
    (bids : List BidView) : RunState :=
  bids.foldl (main_step a last_seen_epoch) ⟨preSeen, last_seen_epoch, []⟩

/-! ## Helper lemmas -/

theorem listStarts_iff (n : List Char) : ∀ h, listStarts n h = true ↔ ∃ b, h = n ++ b := by
  induction n with
  | nil => intro h; simp [listStarts]
  | cons a as ih =>
    intro h
    cases h with
    | nil =>
      simp [listStarts]
    | cons b bs =>
      simp only [listStarts, Bool.and_eq_true, beq_iff_eq, ih, List.cons_append,
        List.cons.injEq]
      constructor
      · rintro ⟨rfl, r, rfl⟩; exact ⟨r, rfl, rfl⟩
      · rintro ⟨r, rfl, rfl⟩; exact ⟨rfl, r, rfl⟩

theorem strContains_iff (h n : List Char) : strContains h n = true ↔ SubstrOf n h := by
  induction h with
  | nil =>
    simp only [strContains, Bool.or_false, listStarts_iff, SubstrOf]
    constructor
    · rintro ⟨b, hb⟩
      rcases List.append_eq_nil.mp hb.symm with ⟨rfl, rfl⟩
      exact ⟨[], [], rfl⟩
    · rintro ⟨a, b, hab⟩
      rcases List.append_eq_nil.mp hab.symm with ⟨h1, rfl⟩
      rcases List.append_eq_nil.mp h1 with ⟨rfl, rfl⟩
      exact ⟨[], rfl⟩
  | cons c t ih =>
    simp only [strContains, Bool.or_eq_true, listStarts_iff, ih, SubstrOf]
    constructor
    · rintro (⟨b, hb⟩ | ⟨a, b, rfl⟩)
      · exact ⟨[], b, by simpa using hb⟩
      · exact ⟨c :: a, b, by simp⟩
    · rintro ⟨a, b, hab⟩
      cases a with
      | nil => exact Or.inl ⟨b, by simpa using hab⟩
      | cons x a' =>
        rcases List.cons.injEq .. ▸ hab with ⟨rfl, h2⟩
        exact Or.inr ⟨a', b, h2⟩

theorem le_foldl_max : ∀ (l : List Int) (i : Int), i ≤ l.foldl max i := by
  intro l
  induction l with
  | nil => intro i; exact le_refl i
  | cons x t ih =>
    intro i
    exact le_trans (le_max_left i x) (ih (max i x))

theorem dropWhile_of_forall_false (p : Char → Bool) (l : List Char)
    (h : ∀ c ∈ l, p c = false) : l.dropWhile p = l := by
  cases l with
  | nil => rfl
  | cons c t => simp [List.dropWhile, h c (by simp)]

theorem takeWhile_of_forall_true (p : Char → Bool) : ∀ (l : List Char),
    (∀ c ∈ l, p c = true) → l.takeWhile p = l := by
  intro l
  induction l with
  | nil => intro _; rfl
  | cons c t ih =>
    intro h
    simp [List.takeWhile, h c (by simp), ih (fun d hd => h d (by simp [hd]))]

theorem dropWhile_of_forall_false_head (p : Char → Bool) (c : Char) (l : List Char)
    (h : p c = false) : (c :: l).dropWhile p = c :: l := by
  simp [List.dropWhile, h]

theorem takeWhile_nil_of_forall_false (p : Char → Bool) (l : List Char)
    (h : ∀ c ∈ l, p c = false) : l.takeWhile p = [] := by
  cases l with
  | nil => rfl
  | cons c t => simp [List.takeWhile, h c (by simp)]

theorem dropWhile_append_of_forall_true (p : Char → Bool) :
    ∀ (a r : List Char), (∀ c ∈ a, p c = true) →
      (a ++ r).dropWhile p = r.dropWhile p := by
  intro a
  induction a with
  | nil => intro r _; rfl
  | cons c t ih =>
    intro r h
    simp [List.dropWhile, h c (by simp), ih r (fun d hd => h d (by simp [hd]))]

theorem takeWhile_append_of_forall_true (p : Char → Bool) :
    ∀ (m r : List Char), (∀ c ∈ m, p c = true) →
      (m ++ r).takeWhile p = m ++ r.takeWhile p := by
  intro m
  induction m with
  | nil => intro r _; rfl
  | cons c t ih =>
    intro r h
    simp [List.takeWhile, h c (by simp), ih r (fun d hd => h d (by simp [hd]))]

/-- Dropping a prefix never crosses an element on which the predicate is
false: the result keeps the suffix `m ++ b` intact and retains only
characters of `a` before it. -/
theorem dropWhile_append_shape (p : Char → Bool) :
    ∀ (a m b : List Char), (∃ d t, m = d :: t ∧ p d = false) →
    ∃ a2, (∀ c ∈ a2, c ∈ a) ∧ (a ++ (m ++ b)).dropWhile p = a2 ++ (m ++ b) := by
  intro a
  induction a with
  | nil =>
    intro m b hm
    rcases hm with ⟨d, t, rfl, hd⟩
    exact ⟨[], by simp, by simp [List.dropWhile, hd]⟩
  | cons c a' ih =>
    intro m b hm
    by_cases hc : p c = true
    · rcases ih m b hm with ⟨a2, ha2, heq⟩
      exact ⟨a2, fun x hx => by simp [ha2 x hx], by simpa [List.dropWhile, hc] using heq⟩
    · refine ⟨c :: a', by simp, ?_⟩
      have hc' : p c = false := by simpa using hc
      simp [List.dropWhile, hc']

/-- `pyStrip` removes characters only from the two ends: around a block `m`
whose first and last characters resist the predicate, the result is
`a2 ++ m ++ b2` with `a2` drawn from `a` and `b2` drawn from `b`. -/
theorem pyStrip_shape (p : Char → Bool) (a m b : List Char)
    (hh : ∃ d t, m = d :: t ∧ p d = false)
    (hl : ∃ d t, m.reverse = d :: t ∧ p d = false) :
    ∃ a2 b2, (∀ c ∈ a2, c ∈ a) ∧ (∀ c ∈ b2, c ∈ b) ∧
      pyStrip p (a ++ m ++ b) = a2 ++ m ++ b2 := by
  rcases dropWhile_append_shape p a m b hh with ⟨a2, ha2, heq1⟩
  have heq1' : (a ++ m ++ b).dropWhile p = a2 ++ m ++ b := by
    rw [List.append_assoc]; rw [heq1]; rw [List.append_assoc]
  have hrev : (a2 ++ m ++ b).reverse = b.reverse ++ (m.reverse ++ a2.reverse) := by
    simp
  rcases dropWhile_append_shape p b.reverse m.reverse a2.reverse hl with ⟨b2r, hb2r, heq2⟩
  refine ⟨a2, b2r.reverse, ha2, ?_, ?_⟩
  · intro c hc
    have : c ∈ b.reverse := hb2r c (by simpa using hc)
    simpa using this
  · unfold pyStrip
    rw [heq1', hrev, heq2]
    simp

/-- The first digit run of `a ++ m ++ b` is exactly `m` when `a` and `b`
are digit-free and `m` is a non-empty run of digits. -/
theorem firstDigitRun_of_shape (a m b : List Char)
    (ha : ∀ c ∈ a, c.isDigit = false) (hm : ∀ c ∈ m, c.isDigit = true)
    (hne : m ≠ []) (hb : ∀ c ∈ b, c.isDigit = false) :
    firstDigitRun (a ++ m ++ b) = m := by
  unfold firstDigitRun
  rw [List.append_assoc]
  rw [dropWhile_append_of_forall_true _ a (m ++ b)
    (fun c hc => by simp [ha c hc])]
  rcases m with _ | ⟨d, t⟩
  · exact absurd rfl hne
  · have hd : d.isDigit = true := hm d (by simp)
    rw [List.cons_append, dropWhile_of_forall_false_head, ← List.cons_append]
    · rw [takeWhile_append_of_forall_true _ (d :: t) b hm]
      rw [takeWhile_nil_of_forall_false _ b hb]
      simp
    · simp [hd]

theorem wsChars_not_digit : ∀ c ∈ wsChars, c.isDigit = false := by decide

theorem idStripChars_not_digit : ∀ c ∈ idStripChars, c.isDigit = false := by decide

theorem isSpaceChar_not_digit (c : Char) (h : isSpaceChar c = true) : c.isDigit = false := by
  have hm : c ∈ wsChars := by
    simpa [isSpaceChar, List.elem_iff] using h
  exact wsChars_not_digit c hm

theorem isIdStripChar_not_digit (c : Char) (h : isIdStripChar c = true) :
    c.isDigit = false := by
  have hm : c ∈ idStripChars := by
    simpa [isIdStripChar, List.elem_iff] using h
  exact idStripChars_not_digit c hm

/-- Characters Python's `normalize_id` can see surrounding a stringified
identifier: whitespace plus the bracket/quote strip set. -/
def surroundChar (c : Char) : Bool := isSpaceChar c || isIdStripChar c

theorem surroundChar_not_digit (c : Char) (h : surroundChar c = true) :
    c.isDigit = false := by
  rcases Bool.or_eq_true_iff.mp (by simpa [surroundChar] using h) with h1 | h1
  · exact isSpaceChar_not_digit c h1
  · exact isIdStripChar_not_digit c h1

theorem digitChar_isDigit (d : Nat) : (digitChar d).isDigit = true := by
  have h : d % 10 < 10 := Nat.mod_lt _ (by norm_num)
  suffices hs : ∀ k, k < 10 → (Char.ofNat (48 + k)).isDigit = true from hs _ h
  intro k hk
  interval_cases k <;> decide

theorem natDigitsAux_digits : ∀ (fuel n : Nat), ∀ c ∈ natDigitsAux fuel n, c.isDigit = true := by
  intro fuel
  induction fuel with
  | zero => intro n c hc; simp [natDigitsAux] at hc
  | succ f ih =>
    intro n c hc
    by_cases h : n < 10
    · simp only [natDigitsAux, if_pos h, List.mem_singleton] at hc
      subst hc; exact digitChar_isDigit n
    · simp only [natDigitsAux, if_neg h, List.mem_append, List.mem_singleton] at hc
      rcases hc with hc | hc
      · exact ih _ c hc
      · subst hc; exact digitChar_isDigit (n % 10)

theorem natDigitsAux_ne_nil (fuel n : Nat) (h : fuel ≠ 0) : natDigitsAux fuel n ≠ [] := by
  cases fuel with
  | zero => exact absurd rfl h
  | succ f =>
    by_cases hn : n < 10
    · simp [natDigitsAux, hn]
    · simp [natDigitsAux, hn]

theorem natStr_digits (n : Nat) : ∀ c ∈ natStr n, c.isDigit = true :=
  natDigitsAux_digits (n + 1) n

theorem natStr_ne_nil (n : Nat) : natStr n ≠ [] :=
  natDigitsAux_ne_nil (n + 1) n (by simp)

/-- `main_step` either leaves the state untouched or, when every gate
passes, extends it with the current bid. -/
theorem main_step_cases (a : CrawlArgs) (ls : Int) (st : RunState) (b : BidView) :
    main_step a ls st b = st ∨
    ∃ e, b.startEpoch = some e ∧ ¬ e ≤ ls ∧ b.id ∉ st.seenIds ∧
      main_step a ls st b =
        ⟨b.id :: st.seenIds, max st.newestEpoch e, st.processed ++ [(b.id, e)]⟩ := by
  by_cases h1 : b.id ∈ st.seenIds
  · left; simp [main_step, h1]
  · by_cases h2 : b.httpOk = true
    · rcases hse : b.startEpoch with _ | e
      · left; simp [main_step, h1, h2, hse]
      · by_cases h3 : e = 0 ∨ e ≤ ls
        · left; simp [main_step, h1, h2, hse, h3]
        · by_cases h4 : passes_filters a b = true
          · right
            refine ⟨e, rfl, fun hle => h3 (Or.inr hle), h1, ?_⟩
            simp [main_step, h1, h2, hse, h3, h4]
          · left; simp [main_step, h1, h2, hse, h3, h4]
    · left
      have h2' : b.httpOk = false := by simpa using h2
      simp [main_step, h1, h2']

/-- Invariant of the per-bid fold: the running `newest_epoch` is always the
max of the pre-run watermark and the recorded processed start epochs. -/
theorem main_fold_newest (a : CrawlArgs) (ls : Int) :
    ∀ (bids : List BidView) (st : RunState),
      st.newestEpoch = (st.processed.map Prod.snd).foldl max ls →
      (bids.foldl (main_step a ls) st).newestEpoch
        = ((bids.foldl (main_step a ls) st).processed.map Prod.snd).foldl max ls := by
  intro bids
  induction bids with
  | nil => intro st h; exact h
  | cons b t ih =>
    intro st h
    rw [List.foldl_cons]
    rcases main_step_cases a ls st b with heq | ⟨e, _, _, _, heq⟩
    · rw [heq]; exact ih st h
    · rw [heq]
      apply ih
      simp only [List.map_append, List.foldl_append, List.map_cons, List.map_nil,
        List.foldl_cons, List.foldl_nil]
      rw [h]

/-- Every entry of the processed list either predates the fold or came from
one of the folded bids, with its id fresh relative to any set contained in
the starting `seenIds` and its epoch strictly above the watermark. -/
theorem main_fold_processed (a : CrawlArgs) (ls : Int) (preSeen : List String) :
    ∀ (bids : List BidView) (st : RunState),
      (∀ s ∈ preSeen, s ∈ st.seenIds) →
      ∀ p ∈ (bids.foldl (main_step a ls) st).processed,
        p ∈ st.processed ∨
          (p.1 ∉ preSeen ∧ ls < p.2 ∧ ∃ b ∈ bids, b.id = p.1 ∧ b.startEpoch = some p.2) := by
  intro bids
  induction bids with
  | nil =>
    intro st _ p hp
    exact Or.inl hp
  | cons b t ih =>
    intro st hsub p hp
    rw [List.foldl_cons] at hp
    rcases main_step_cases a ls st b with heq | ⟨e, hse, hgt, hfresh, heq⟩
    · rw [heq] at hp
      rcases ih st hsub p hp with h | ⟨h1, h2, bb, hbb, h3⟩
      · exact Or.inl h
      · exact Or.inr ⟨h1, h2, bb, by simp [hbb], h3⟩
    · rw [heq] at hp
      have hsub' : ∀ s ∈ preSeen, s ∈ b.id :: st.seenIds := by
        intro s hs
        exact List.mem_cons_of_mem _ (hsub s hs)
      rcases ih _ hsub' p hp with h | ⟨h1, h2, bb, hbb, h3⟩
      · simp only [List.mem_append, List.mem_singleton] at h
        rcases h with h | h
        · exact Or.inl h
        · subst h
          refine Or.inr ⟨?_, by simpa using hgt, b, by simp, rfl, hse⟩
          exact fun hmem => hfresh (hsub _ hmem)
      · exact Or.inr ⟨h1, h2, bb, by simp [hbb], h3⟩

theorem digit_not_space (c : Char) (h : c.isDigit = true) : isSpaceChar c = false := by
  by_cases hs : isSpaceChar c = true
  · exact absurd h (by simp [isSpaceChar_not_digit c hs])
  · simpa using hs

theorem digit_not_idStrip (c : Char) (h : c.isDigit = true) : isIdStripChar c = false := by
  by_cases hs : isIdStripChar c = true
  · exact absurd h (by simp [isIdStripChar_not_digit c hs])
  · simpa using hs

theorem pyStrip_of_forall_false (p : Char → Bool) (l : List Char)
    (h : ∀ c ∈ l, p c = false) : pyStrip p l = l := by
  unfold pyStrip
  rw [dropWhile_of_forall_false p l h]
  rw [dropWhile_of_forall_false p l.reverse (fun c hc => h c (List.mem_reverse.mp hc))]
  exact List.reverse_reverse l

theorem firstDigitRun_of_all_digit (m : List Char) (h : ∀ c ∈ m, c.isDigit = true) :
    firstDigitRun m = m := by
  unfold firstDigitRun
  rw [dropWhile_of_forall_false _ m (fun c hc => by simp [h c hc])]
  exact takeWhile_of_forall_true _ m h

/-- The digit-extraction pipeline of `normalize_id`'s string branch returns
exactly the digit block when it is surrounded only by digit-free junk. -/
theorem firstDigitRun_strip_shape (m pre post : List Char)
    (hm : ∀ c ∈ m, c.isDigit = true) (hne : m ≠ [])
    (hpre : ∀ c ∈ pre, c.isDigit = false) (hpost : ∀ c ∈ post, c.isDigit = false) :
    firstDigitRun (pyStrip isIdStripChar (pyStrip isSpaceChar (pre ++ m ++ post))) = m := by
  obtain ⟨d, t, rfl⟩ : ∃ d t, m = d :: t := by
    rcases hms : m with _ | ⟨d, t⟩
    · exact absurd hms hne
    · exact ⟨d, t, rfl⟩
  have hhead : ∀ (p : Char → Bool), (∀ c, c.isDigit = true → p c = false) →
      ∃ d2 t2, d :: t = d2 :: t2 ∧ p d2 = false :=
    fun p hp => ⟨d, t, rfl, hp d (hm d (by simp))⟩
  have hlast : ∀ (p : Char → Bool), (∀ c, c.isDigit = true → p c = false) →
      ∃ d2 t2, (d :: t).reverse = d2 :: t2 ∧ p d2 = false := by
    intro p hp
    rcases hr : (d :: t).reverse with _ | ⟨d2, t2⟩
    · exact absurd (List.reverse_eq_nil_iff.mp hr) (by simp)
    · refine ⟨d2, t2, rfl, hp d2 (hm d2 ?_)⟩
      have : d2 ∈ (d :: t).reverse := by rw [hr]; simp
      exact List.mem_reverse.mp this
  rcases pyStrip_shape isSpaceChar pre (d :: t) post
      (hhead _ digit_not_space) (hlast _ digit_not_space) with ⟨a2, b2, ha2, hb2, heq1⟩
  rcases pyStrip_shape isIdStripChar a2 (d :: t) b2
      (hhead _ digit_not_idStrip) (hlast _ digit_not_idStrip) with ⟨a3, b3, ha3, hb3, heq2⟩
  rw [heq1, heq2]
  exact firstDigitRun_of_shape a3 (d :: t) b3
    (fun c hc => hpre c (ha2 c (ha3 c hc))) hm (by simp)
    (fun c hc => hpost c (hb2 c (hb3 c hc)))

/-! ## Claims -/

/-- Claim C1 (corrected; counterexample).  The claim assigns the
whole-substring test to `contains` mode, but the source gives it to `exact`
mode: in `contains` mode the keyword `"b a"` matches the text `"ab"` (both
tokens occur) even though `"b a"` is not a substring of `"ab"`. -/
theorem C1_counterexample :
    matches_keyword ("ab".toList) (some ("b a".toList)) ("contains".toList) = true
    ∧ ¬ SubstrOf (lowerL ("b a".toList)) (lowerL ("ab".toList)) := by
  refine ⟨by decide, fun hs => ?_⟩
  exact absurd ((strContains_iff _ _).mpr hs) (by decide)

/-- Claim C1 (amended): for a non-empty keyword, mode `"exact"` passes iff
the whole keyword is a case-insensitive substring of the text, and every
other mode (including the default `"contains"`) passes iff every
whitespace-separated token of the keyword is a case-insensitive substring;
an absent keyword passes every text. -/
theorem C1_keyword_filter_modes (text kw mode : List Char) (hk : kw ≠ []) :
    (mode = "exact".toList →
      (matches_keyword text (some kw) mode = true ↔
        SubstrOf (lowerL kw) (lowerL text)))
    ∧ (mode ≠ "exact".toList →
      (matches_keyword text (some kw) mode = true ↔
        ∀ t ∈ splitWs (lowerL kw), SubstrOf t (lowerL text)))
    ∧ matches_keyword text Option.none mode = true := by
  have hkE : kw.isEmpty = false := by
    cases kw with
    | nil => exact absurd rfl hk
    | cons c t => rfl
  refine ⟨?_, ?_, rfl⟩
  · intro hm
    simp [matches_keyword, hkE, hm, strContains_iff]
  · intro hm
    have hm2 : mode ≠ ['e', 'x', 'a', 'c', 't'] := hm
    simp [matches_keyword, hkE, hm2, List.all_eq_true, strContains_iff]

/-- Witness for C1 at a concrete input. -/
theorem C1_witness :
    matches_keyword ("GeM bid".toList) (some ("BID".toList)) ("exact".toList) = true ↔
      SubstrOf (lowerL ("BID".toList)) (lowerL ("GeM bid".toList)) :=
  (C1_keyword_filter_modes ("GeM bid".toList) ("BID".toList) ("exact".toList)
    (by decide)).1 rfl

/-- Claim C2 (confirmed).  `bid_doc_url` routes on
`(b_bid_type, b_eval_type)`: 5 → `showdirectradocumentPdf`, 2 with
evaluation 0 → `showradocumentPdf`, 2 with positive evaluation →
`list-ra-schedules`, anything else → `showbidDocument`, each joined with
the normalized bid identifier. -/
theorem C2_doc_routing (doc : List (String × PyVal)) (t e : Int)
    (ht : pyGetD doc "b_bid_type" .none = .int t)
    (he : pyGetD doc "b_eval_type" (.int 0) = .int e)
    (hid : (normalize_id (pyGetD doc "b_id" .none)).isEmpty = false) :
    (t = 5 → bid_doc_url doc = some (GEM_BASE ++ '/' :: "showdirectradocumentPdf".toList
        ++ '/' :: normalize_id (pyGetD doc "b_id" .none)))
    ∧ (t = 2 → e = 0 → bid_doc_url doc = some (GEM_BASE ++ '/' :: "showradocumentPdf".toList
        ++ '/' :: normalize_id (pyGetD doc "b_id" .none)))
    ∧ (t = 2 → 0 < e → bid_doc_url doc = some (GEM_BASE ++ '/' :: "list-ra-schedules".toList
        ++ '/' :: normalize_id (pyGetD doc "b_id" .none)))
    ∧ (t ≠ 5 → t ≠ 2 → bid_doc_url doc = some (GEM_BASE ++ '/' :: "showbidDocument".toList
        ++ '/' :: normalize_id (pyGetD doc "b_id" .none))) := by
  refine ⟨?_, ?_, ?_, ?_⟩
  · rintro rfl
    simp [bid_doc_url, ht, he, pyEqInt, hid]
  · rintro rfl rfl
    simp [bid_doc_url, ht, he, pyEqInt, pyOr, pyTruthy, pyGtZero, hid]
  · rintro rfl hpos
    have hne : ¬ e = 0 := by omega
    simp [bid_doc_url, ht, he, pyEqInt, pyOr, pyTruthy, pyGtZero, hid, hne, hpos]
  · intro h5 h2
    simp [bid_doc_url, ht, pyEqInt, hid, h5, h2]

/-- Witness for C2 at a concrete record. -/
theorem C2_witness :
    bid_doc_url [("b_id", PyVal.int 123), ("b_bid_type", PyVal.int 5)] =
      some (GEM_BASE ++ '/' :: "showdirectradocumentPdf".toList ++ '/' ::
        normalize_id (pyGetD [("b_id", PyVal.int 123), ("b_bid_type", PyVal.int 5)]
          "b_id" PyVal.none)) :=
  (C2_doc_routing [("b_id", PyVal.int 123), ("b_bid_type", PyVal.int 5)] 5 0
    rfl rfl (by decide)).1 rfl

/-- Claim C3 (confirmed).  The persisted `last_seen_epoch` (the final
`newest_epoch`) never drops below its pre-run value and equals the maximum
of the pre-run value and the start epochs of the bids processed during the
run. -/
theorem C3_watermark_monotone (a : CrawlArgs) (ls : Int) (preSeen : List String)
    (bids : List BidView) :
    ls ≤ (main_run a ls preSeen bids).newestEpoch
    ∧ (main_run a ls preSeen bids).newestEpoch
      = ((main_run a ls preSeen bids).processed.map Prod.snd).foldl max ls := by
  have h := main_fold_newest a ls bids ⟨preSeen, ls, []⟩ (by simp)
  refine ⟨?_, h⟩
  rw [show (main_run a ls preSeen bids).newestEpoch = _ from h]
  exact le_foldl_max _ _

/-- Claim C4 (confirmed).  A bid is processed only if its id is outside the
pre-run `seen_ids` and its extracted start epoch is a known value strictly
above the pre-run watermark; a bid failing either condition leaves the loop
state untouched. -/
theorem C4_eligibility (a : CrawlArgs) (ls : Int) (preSeen : List String)
    (bids : List BidView) :
    (∀ p ∈ (main_run a ls preSeen bids).processed,
      p.1 ∉ preSeen ∧ ls < p.2 ∧ ∃ b ∈ bids, b.id = p.1 ∧ b.startEpoch = some p.2)
    ∧ (∀ (st : RunState) (b : BidView), (∀ s ∈ preSeen, s ∈ st.seenIds) →
        (b.id ∈ preSeen ∨ ¬ ∃ e, b.startEpoch = some e ∧ ls < e) →
        main_step a ls st b = st) := by
  constructor
  · intro p hp
    rcases main_fold_processed a ls preSeen bids ⟨preSeen, ls, []⟩ (fun _ hs => hs) p hp
      with h | h
    · simp at h
    · exact h
  · intro st b hsub hcond
    rcases main_step_cases a ls st b with heq | ⟨e, hse, hgt, hfresh, _⟩
    · exact heq
    · exfalso
      rcases hcond with hmem | hnex
      · exact hfresh (hsub _ hmem)
      · exact hnex ⟨e, hse, not_le.mp hgt⟩

/-- Witness for C4: a bid whose id is already in the pre-run seen set is
skipped without state change. -/
theorem C4_witness :
    main_step ⟨Option.none, "contains".toList, Option.none, Option.none⟩ 40
      ⟨["5"], 40, []⟩ ⟨"5", true, some 50, [], [], []⟩ = ⟨["5"], 40, []⟩ :=
  (C4_eligibility ⟨Option.none, "contains".toList, Option.none, Option.none⟩ 40 ["5"] []).2
    ⟨["5"], 40, []⟩ ⟨"5", true, some 50, [], [], []⟩ (fun _ hs => hs) (Or.inl (by decide))

/-- Claim C5 (corrected; counterexample).  `normalize_ms` is not
non-negative — a negative integer passes through — and a list does not
recurse: the builtin integer coercion applied to a nested-list head raises
and is caught to 0. -/
theorem C5_counterexample :
    normalize_ms (.int (-1)) = -1 ∧ normalize_ms (.int (-1)) < 0
    ∧ normalize_ms (.list [.list [.int 1700000000000]]) = 0 :=
  ⟨rfl, by decide, by decide⟩

/-- Claim C5 (amended): `normalize_ms` returns an integer (negative ints
included): an int passes through, a float truncates toward zero, a list
applies the integer coercion to its first element (empty list or failed
coercion gives 0 — so nested lists give 0), a string parses as an integer
(failure gives 0), null gives 0; the spec's four examples hold. -/
theorem C5_normalize_ms_spec :
    (∀ n : Int, normalize_ms (.int n) = n)
    ∧ (∀ q : Rat, normalize_ms (.float q) = truncRat q)
    ∧ (∀ h t, normalize_ms (.list (h :: t)) =
        (match pyIntCoerce h with | .ok n => n | .error _ => 0))
    ∧ (∀ s, normalize_ms (.str s) =
        (match parseInt s with | some n => n | Option.none => 0))
    ∧ normalize_ms .none = 0
    ∧ normalize_ms (.list [.int 1700000000000]) = 1700000000000
    ∧ normalize_ms (.list []) = 0
    ∧ normalize_ms (.str ("1700000000000".toList)) = 1700000000000 :=
  ⟨fun _ => rfl, fun _ => rfl, fun _ _ => rfl,
    fun s => by cases hp : parseInt s <;> simp [normalize_ms, pyIntCoerce, hp],
    rfl, by decide, rfl, by decide⟩

/-- Claim C6 (corrected; counterexample).  For a negative integer the three
forms disagree: `normalize_id (-5)` keeps the sign while the stringified
form is reduced to its digit run. -/
theorem C6_counterexample :
    normalize_id (.int (-5)) = "-5".toList
    ∧ normalize_id (.str (" -5 ".toList)) = "5".toList
    ∧ normalize_id (.int (-5)) ≠ normalize_id (.str (" -5 ".toList)) :=
  ⟨by decide, by decide, by decide⟩

/-- Claim C6 (amended): for every `n : ℕ`, the integer `n`, the
single-element list `[n]`, and `n`'s decimal string surrounded by
whitespace/bracket/quote characters all normalize to `n`'s decimal digit
string; null and the empty list give the empty string. -/
theorem C6_normalize_id_forms (n : Nat) (pre post : List Char)
    (hpre : ∀ c ∈ pre, surroundChar c = true)
    (hpost : ∀ c ∈ post, surroundChar c = true) :
    normalize_id (.int (n : Int)) = natStr n
    ∧ normalize_id (.list [.int (n : Int)]) = natStr n
    ∧ normalize_id (.str (pre ++ natStr n ++ post)) = natStr n
    ∧ normalize_id .none = [] ∧ normalize_id (.list []) = [] := by
  have hint : normalize_id (.int (n : Int)) = natStr n := by
    show intStr (n : Int) = natStr n
    unfold intStr
    rw [if_neg (by omega : ¬ (n : Int) < 0)]
    simp
  refine ⟨hint, hint, ?_, rfl, rfl⟩
  show firstDigitRun (pyStrip isIdStripChar (pyStrip isSpaceChar (pre ++ natStr n ++ post)))
    = natStr n
  exact firstDigitRun_strip_shape (natStr n) pre post (natStr_digits n) (natStr_ne_nil n)
    (fun c hc => surroundChar_not_digit c (hpre c hc))
    (fun c hc => surroundChar_not_digit c (hpost c hc))

/-- Witness for C6 at `n = 8768710` with brackets and spaces around the
string form. -/
theorem C6_witness :
    normalize_id (.str (" [".toList ++ natStr 8768710 ++ "] ".toList)) = natStr 8768710 :=
  (C6_normalize_id_forms 8768710 (" [".toList) ("] ".toList)
    (by decide) (by decide)).2.2.1

/-- Claim C7 (confirmed).  Each normalizer terminates on every value shape:
with fuel one more than the value's list-head nesting depth, the fueled
re-statements (which return `Option.none` on fuel exhaustion and model every
raising primitive as a caught `Except`) return exactly the total functions'
results — no exception escapes and no input runs forever. -/
theorem C7_normalizers_total : ∀ (v : PyVal),
    normalize_ms_run (headDepth v + 1) v = some (normalize_ms v)
    ∧ normalize_id_run (headDepth v + 1) v = some (normalize_id v)
    ∧ normalize_bid_no_run (headDepth v + 1) v = some (normalize_bid_no v)
  | .none => ⟨rfl, rfl, rfl⟩
  | .bool _ => ⟨rfl, rfl, rfl⟩
  | .int _ => ⟨rfl, rfl, rfl⟩
  | .float _ => ⟨rfl, rfl, rfl⟩
  | .str _ => ⟨rfl, rfl, rfl⟩
  | .list [] => ⟨rfl, rfl, rfl⟩
  | .list (h :: _) =>
    have ih := C7_normalizers_total h
    ⟨rfl, ih.2.1, ih.2.2⟩
  | .dict _ => ⟨rfl, rfl, rfl⟩

/-- Claim C8 (corrected; counterexample).  The claim is false of the
incremental downloader: `download_bid_pdf` trusts the declared content type
alone, so an `application/octet-stream` response whose body starts with
`%PDF-` is reported as failure, not success. -/
theorem C8_counterexample :
    download_bid_pdf "123"
      (.ok ⟨200, "application/octet-stream".toList, pdfMagic ++ [10]⟩) = .ok false
    ∧ (pdfMagic ++ [10]).take 5 = pdfMagic :=
  ⟨rfl, rfl⟩

/-- Claim C8 (amended, scoped to the latest downloader `download_file`):
when the declared content type does not contain `"pdf"`, success is decided
exactly by the first five body bytes being `%PDF-`; on mismatch a
diagnostic artifact is written and failure reported. -/
theorem C8_download_verification (url out_path referer : String) (r : HttpResp)
    (hs : r.status < 400)
    (hct : strContains (lowerL r.contentType) ("pdf".toList) = false) :
    download_file url out_path referer (.ok r) =
      if r.body.take 5 = pdfMagic then ⟨true, true, false⟩ else ⟨false, false, true⟩ := by
  have h4 : ¬ 400 ≤ r.status := by omega
  have hct2 : strContains (lowerL r.contentType) ['p', 'd', 'f'] = false := hct
  simp [download_file, h4, hct2]

/-- Witness for C8: the spec's two scenarios — `text/html` without the
signature fails with a diagnostic, `application/octet-stream` with the
signature succeeds. -/
theorem C8_witness :
    download_file "u" "o" "rf" (.ok ⟨200, "text/html".toList, [60, 104, 116]⟩)
      = ⟨false, false, true⟩
    ∧ download_file "u" "o" "rf"
        (.ok ⟨200, "application/octet-stream".toList, pdfMagic ++ [10]⟩)
      = ⟨true, true, false⟩ :=
  ⟨(C8_download_verification "u" "o" "rf" ⟨200, "text/html".toList, [60, 104, 116]⟩
      (by decide) (by decide)).trans (by decide),
   (C8_download_verification "u" "o" "rf"
      ⟨200, "application/octet-stream".toList, pdfMagic ++ [10]⟩
      (by decide) (by decide)).trans (by decide)⟩

/-- Claim C9 (corrected; counterexample).  In the incremental script a
transport exception is not caught: `download_bid_pdf` propagates it to the
caller. -/
theorem C9_counterexample :
    download_bid_pdf "123" (.error "ConnectionError") = .error "ConnectionError" :=
  rfl

/-- Claim C9 (amended, scoped to the latest downloader `download_file`):
every transport-level exception is caught inside the operation and reported
as a failure return value — nothing is written and `False` is returned. -/
theorem C9_transport_exception_caught (url out_path referer e : String) :
    download_file url out_path referer (.error e) = ⟨false, false, false⟩ :=
  rfl

/-- Claim C10 (corrected; counterexample).  `normalize_id` is not idempotent
on every input: the output for `-5` contains a sign character, which a
second application strips. -/
theorem C10_counterexample :
    normalize_id (.str (normalize_id (.int (-5)))) ≠ normalize_id (.int (-5)) := by
  decide

/-- Claim C10 (amended): `normalize_id` is idempotent on every input whose
output is empty or consists only of decimal digits (which covers all
string, null, and non-negative numeric inputs). -/
theorem C10_idempotent_on_digit_outputs (v : PyVal)
    (h : (normalize_id v).all Char.isDigit = true) :
    normalize_id (.str (normalize_id v)) = normalize_id v := by
  have hall : ∀ c ∈ normalize_id v, c.isDigit = true := List.all_eq_true.mp h
  show firstDigitRun (pyStrip isIdStripChar (pyStrip isSpaceChar (normalize_id v)))
    = normalize_id v
  rw [pyStrip_of_forall_false _ _ (fun c hc => digit_not_space c (hall c hc))]
  rw [pyStrip_of_forall_false _ _ (fun c hc => digit_not_idStrip c (hall c hc))]
  exact firstDigitRun_of_all_digit _ hall

/-- Witness for C10 at a digit-string input. -/
theorem C10_witness :
    normalize_id (.str (normalize_id (.str ("77".toList)))) = normalize_id (.str ("77".toList)) :=
  C10_idempotent_on_digit_outputs (.str ("77".toList)) (by decide)

end GemDw
